import Mathlib

/-!
Shallow embedding of the tl-pack binary codec (BinaryWriter.ts, BinaryReader.ts,
dictionary.ts, helpers.ts, constants.ts) and proofs about the claims of its
specification.

Conventions of the embedding:
* JavaScript strings are modelled as lists of UTF-16 code units (`List Nat`);
  the JS `length` of a string is the length of that list.
* JavaScript numbers are modelled by `JNum`: a rational for every finite
  double, plus the two infinities and NaN.  The IEEE-754 bit patterns written
  and read by the codec are computed exactly (`ieeeBits`, `bitsOfView`).
* Byte buffers are `List Nat`; the writer buffer is grown with zero padding
  (the code allocates uninitialised memory, but every byte inside the returned
  prefix is written before `getBuffer` returns it, so the padding is never
  observed).
* The gzip branch (an external black box, pako) and the extension registry are
  not modelled; all claims under proof run with gzip disabled and no
  extensions registered, matching the configurations named by the claims.
* Recursion in both the writer and the reader is fuel-indexed so that every
  function is executable and reducible by the kernel; fuel exhaustion is a
  distinguished error that no theorem ever confuses with codec behaviour.
-/

namespace TLP

attribute [local semireducible] Rat.mul Rat.inv Rat.add Rat.sub Rat.ofScientific

set_option maxRecDepth 100000

/-- A JavaScript number: a finite double (held exactly as a rational),
an infinity, or NaN. -/
inductive JNum where
  | fin (q : ℚ)
  | inf (neg : Bool)
  | nan
deriving DecidableEq

/-- JS `<=` on numbers: false whenever either side is NaN. -/
def JNum.jle : JNum → JNum → Bool
  | .fin a, .fin b => decide (a ≤ b)
  | .fin _, .inf neg => !neg
  | .inf neg, .fin _ => neg
  | .inf a, .inf b => (a == b) || (a && !b)
  | _, _ => false

/-- JS strict equality `===` on numbers (NaN is not equal to itself). -/
def JNum.seq : JNum → JNum → Bool
  | .fin a, .fin b => decide (a = b)
  | .inf a, .inf b => a == b
  | _, _ => false

/-- Truncation toward zero of a rational, as in the JS ToIntegerOrInfinity
abstract operation restricted to finite values. -/
def qTrunc (q : ℚ) : Int := if 0 ≤ q then Rat.floor q else -Rat.floor (-q)

/-- JS truncation of a number to an integer: NaN and the infinities map
to 0 (as in ToUint8 / ToInt32). -/
def JNum.trunc : JNum → Int
  | .fin q => qTrunc q
  | _ => 0

/-- JS ToInt32: truncate, reduce mod 2^32 into the signed 32-bit range. -/
def JNum.toInt32 (v : JNum) : Int := (v.trunc + 2 ^ 31).emod (2 ^ 32) - 2 ^ 31

/-- JS `value >> k` (arithmetic shift of the ToInt32 image; an arithmetic
right shift of a two-complement integer is flooring division by 2^k). -/
def JNum.shr (v : JNum) (k : Nat) : Int := Int.ediv v.toInt32 (2 ^ k)

/-- Low byte of an integer, as stored by an assignment into a Uint8Array
(ToUint8 of an integer is its residue mod 256). -/
def byteOf (i : Int) : Nat := (Int.emod i 256).toNat

/-- Little-endian byte list of the low `count` bytes of a natural number. -/
def natLEBytes (n : Nat) (count : Nat) : List Nat :=
  (List.range count).map (fun k => n / 2 ^ (8 * k) % 256)

/-- Power of two as a rational, for an integer exponent (kept away from the
generic zpow machinery so that the kernel evaluates it directly). -/
def pow2q (e : Int) : ℚ :=
  if 0 ≤ e then ((2 ^ e.toNat : ℕ) : ℚ) else mkRat 1 (2 ^ (-e).toNat)

/-- Absolute value of a rational, spelled out. -/
def qAbs (q : ℚ) : ℚ := if q < 0 then -q else q

/-- Round half to even, for IEEE-754 significand rounding. -/
def rhe (q : ℚ) : Int :=
  let n := Rat.floor q
  let fr := q - (n : ℚ)
  if fr < mkRat 1 2 then n
  else if mkRat 1 2 < fr then n + 1
  else if n % 2 = 0 then n else n + 1

/-- Worker for `natLog2`; fuel at least the argument suffices. -/
def nlog2 : Nat → Nat → Nat
  | 0, _ => 0
  | f + 1, n => if 2 ≤ n then nlog2 f (n / 2) + 1 else 0

/-- Base-two logarithm of a natural number (floor), kernel-reducible. -/
def natLog2 (n : Nat) : Nat := nlog2 n n

/-- Largest `e` with `2 ^ e ≤ m`, for a positive rational `m`. -/
def qlog2 (m : ℚ) : Int :=
  let a := m.num.toNat
  let b := m.den
  let e0 : Int := (natLog2 a : Int) - (natLog2 b : Int) - 1
  let e1 : Int := if pow2q (e0 + 1) ≤ m then e0 + 1 else e0
  if pow2q (e1 + 1) ≤ m then e1 + 1 else e1

/-- IEEE-754 bit pattern (as a natural number) of a JS number, for a binary
format with `expBits` exponent bits and `mantBits` stored mantissa bits.
Rounding is round-to-nearest, ties to even; overflow goes to infinity;
NaN uses the canonical quiet pattern the JS engines store. -/
def ieeeBits (expBits mantBits : Nat) (v : JNum) : Nat :=
  let bias : Nat := 2 ^ (expBits - 1) - 1
  let emax : Nat := 2 ^ expBits - 1
  match v with
  | .nan => emax * 2 ^ mantBits + 2 ^ (mantBits - 1)
  | .inf neg => (if neg then 2 ^ (expBits + mantBits) else 0) + emax * 2 ^ mantBits
  | .fin q =>
    if q = 0 then 0
    else
      let s : Nat := if q < 0 then 2 ^ (expBits + mantBits) else 0
      let m : ℚ := qAbs q
      let e : Int := qlog2 m
      let E : Int := max e (1 - (bias : Int))
      let R : Int := rhe (m / pow2q E * ((2 ^ mantBits : ℕ) : ℚ))
      let E : Int := if R = 2 ^ (mantBits + 1) then E + 1 else E
      let R : Int := if R = 2 ^ (mantBits + 1) then 2 ^ mantBits else R
      if (emax : Int) ≤ E + bias then s + emax * 2 ^ mantBits
      else if R < 2 ^ mantBits then s + R.toNat
      else s + (E + bias).toNat * 2 ^ mantBits + (R - 2 ^ mantBits).toNat

/-- The 64-bit pattern stored by `float64[0] = value`. -/
def doubleBits (v : JNum) : Nat := ieeeBits 11 52 v

/-- The 32-bit pattern stored by `float32[0] = value` (rounds to single). -/
def floatBits (v : JNum) : Nat := ieeeBits 8 23 v

/-- Exact value of an IEEE-754 bit pattern (inverse direction, used by
`readFloat` / `readDouble`). -/
def bitsToJNum (expBits mantBits : Nat) (bits : Nat) : JNum :=
  let m := bits % 2 ^ mantBits
  let e := bits / 2 ^ mantBits % 2 ^ expBits
  let s := bits / 2 ^ (mantBits + expBits) % 2
  let bias : Nat := 2 ^ (expBits - 1) - 1
  if e = 2 ^ expBits - 1 then (if m = 0 then .inf (s = 1) else .nan)
  else
    let mag : ℚ :=
      if e = 0 then (m : ℚ) * pow2q ((1 : Int) - bias - mantBits)
      else ((2 ^ mantBits + m : ℕ) : ℚ) * pow2q ((e : Int) - bias - mantBits)
    .fin (if s = 1 then -mag else mag)

/-- UTF-8 bytes of a single scalar value. -/
def utf8EncCp (cp : Nat) : List Nat :=
  if cp < 0x80 then [cp]
  else if cp < 0x800 then [0xC0 + cp / 0x40, 0x80 + cp % 0x40]
  else if cp < 0x10000 then
    [0xE0 + cp / 0x1000, 0x80 + cp / 0x40 % 0x40, 0x80 + cp % 0x40]
  else
    [0xF0 + cp / 0x40000, 0x80 + cp / 0x1000 % 0x40,
     0x80 + cp / 0x40 % 0x40, 0x80 + cp % 0x40]

/-- Worker for `utf8Bytes`; the fuel argument only bounds the recursion and
any fuel at least the list length gives the full answer (every step consumes
at least one unit). -/
def utf8BytesGo : Nat → List Nat → List Nat
  | 0, _ => []
  | _, [] => []
  | f + 1, u :: rest =>
    if u < 0xD800 ∨ 0xDFFF < u then utf8EncCp u ++ utf8BytesGo f rest
    else if u ≤ 0xDBFF then
      match rest with
      | u2 :: rest2 =>
        if 0xDC00 ≤ u2 ∧ u2 ≤ 0xDFFF then
          utf8EncCp (0x10000 + (u - 0xD800) * 0x400 + (u2 - 0xDC00)) ++
            utf8BytesGo f rest2
        else utf8EncCp 0xFFFD ++ utf8BytesGo f rest
      | [] => utf8EncCp 0xFFFD
    else utf8EncCp 0xFFFD ++ utf8BytesGo f rest

/-- UTF-8 encoding of a UTF-16 code unit sequence, as TextEncoder.encodeInto
performs it: surrogate pairs combine, lone surrogates become U+FFFD. -/
def utf8Bytes (l : List Nat) : List Nat := utf8BytesGo l.length l

/-- UTF-16 code units of a scalar value. -/
def cpToUnits (cp : Nat) : List Nat :=
  if cp < 0x10000 then [cp]
  else [0xD800 + (cp - 0x10000) / 0x400, 0xDC00 + (cp - 0x10000) % 0x400]

/-- Is a byte a UTF-8 continuation byte. -/
def isCont (b : Nat) : Bool := 0x80 ≤ b && b ≤ 0xBF

/-- Worker for `utf8Decode`; fuel at least the list length gives the full
answer. -/
def utf8DecodeGo : Nat → List Nat → List Nat
  | 0, _ => []
  | _, [] => []
  | f + 1, b :: rest =>
    if b ≤ 0x7F then b :: utf8DecodeGo f rest
    else if 0xC2 ≤ b && b ≤ 0xDF then
      match rest with
      | b1 :: r1 =>
        if isCont b1 then ((b - 0xC0) * 0x40 + (b1 - 0x80)) :: utf8DecodeGo f r1
        else 0xFFFD :: utf8DecodeGo f rest
      | [] => [0xFFFD]
    else if 0xE0 ≤ b && b ≤ 0xEF then
      match rest with
      | b1 :: b2 :: r2 =>
        let lo := if b = 0xE0 then 0xA0 else 0x80
        let hi := if b = 0xED then 0x9F else 0xBF
        if (lo ≤ b1 && b1 ≤ hi) && isCont b2 then
          ((b - 0xE0) * 0x1000 + (b1 - 0x80) * 0x40 + (b2 - 0x80)) :: utf8DecodeGo f r2
        else 0xFFFD :: utf8DecodeGo f rest
      | _ => [0xFFFD]
    else if 0xF0 ≤ b && b ≤ 0xF4 then
      match rest with
      | b1 :: b2 :: b3 :: r3 =>
        let lo := if b = 0xF0 then 0x90 else 0x80
        let hi := if b = 0xF4 then 0x8F else 0xBF
        if (lo ≤ b1 && b1 ≤ hi) && (isCont b2 && isCont b3) then
          cpToUnits ((b - 0xF0) * 0x40000 + (b1 - 0x80) * 0x1000 +
            (b2 - 0x80) * 0x40 + (b3 - 0x80)) ++ utf8DecodeGo f r3
        else 0xFFFD :: utf8DecodeGo f rest
      | _ => [0xFFFD]
    else 0xFFFD :: utf8DecodeGo f rest

/-- UTF-8 decoding to UTF-16 code units, as TextDecoder performs it;
malformed sequences produce U+FFFD. -/
def utf8Decode (l : List Nat) : List Nat := utf8DecodeGo l.length l

/-- A JS string as the codec sees it: its UTF-16 code units. -/
abbrev JsStr := List Nat

/-- A JavaScript value of the kinds the codec handles.  `bytes` stands for a
Uint8Array or Buffer, `map` for a plain object (its own enumerable entries,
in insertion order).  Distinct constructors of `date`, `bytes`, `vec` and
`map` denote distinct object references. -/
inductive JsVal where
  | undef
  | null
  | bool (b : Bool)
  | num (n : JNum)
  | str (s : JsStr)
  | date (ms : JNum)
  | bytes (bs : List Nat)
  | vec (elems : List JsVal)
  | map (entries : List (JsStr × JsVal))

/-- Constructor code chosen by `coreType` in helpers.ts for a number.
The source checks only range, not integrality (the shipped helpers.ts has
no `value >> 0 === value` guard). -/
def coreTypeNum (v : JNum) : Nat :=
  if JNum.jle (.fin 0) v && JNum.jle v (.fin 255) then 13
  else if JNum.jle (.fin 0) v && JNum.jle v (.fin 65535) then 12
  else if JNum.jle (.fin 0) v && JNum.jle v (.fin 4294967295) then 11
  else if JNum.jle (.fin (-128)) v && JNum.jle v (.fin 127) then 10
  else if JNum.jle (.fin (-32768)) v && JNum.jle v (.fin 32767) then 9
  else if JNum.jle (.fin (-2147483648)) v && JNum.jle v (.fin 2147483647) then 8
  else 15

/-- `coreType` of helpers.ts: the constructor code inferred from the runtime
type of a value.  A Uint8Array is not null, not a Date, not an Array and not
a plain object, so it falls through to None (0), as does undefined. -/
def coreType : JsVal → Nat
  | .str _ => 19
  | .bool b => if b then 3 else 2
  | .num n => coreTypeNum n
  | .null => 4
  | .date _ => 5
  | .vec _ => 6
  | .map _ => 16
  | .bytes _ => 0
  | .undef => 0

/-- JS strict equality `this._last === value` as the writer uses it.
`none` models the private noop sentinel.  Strings, numbers, booleans and
null compare by value; Date, Array, plain object and Uint8Array operands
compare by reference, and the embedding carries no aliasing, so distinct
tree nodes are unequal. -/
def jsStrictEq : Option JsVal → JsVal → Bool
  | none, _ => false
  | some (.num a), .num b => a.seq b
  | some (.str a), .str b => a == b
  | some (.bool a), .bool b => a == b
  | some .null, .null => true
  | some .undef, .undef => true
  | some _, _ => false

/-- The string table of dictionary.ts: an ordered word list plus a base
offset.  The private `_count` always equals `index.length`, and the private
`_map` sends each stored word to its position in `index`. -/
structure Dictionary where
  index : List JsStr
  offset : Nat
deriving DecidableEq

/-- Position of a word in the ordered list (the `_map` lookup). -/
def findIdx (w : JsStr) : List JsStr → Option Nat
  | [] => none
  | x :: xs => if x = w then some 0 else (findIdx w xs).map (· + 1)

/-- `getIndex`: absolute index of a word, offset applied. -/
def Dictionary.getIndex (d : Dictionary) (w : JsStr) : Option Nat :=
  (findIdx w d.index).map (· + d.offset)

/-- `getValue`: the word at an absolute index; a JS array read at a negative
position yields undefined. -/
def Dictionary.getValue (d : Dictionary) (i : Nat) : Option JsStr :=
  if i < d.offset then none else d.index.get? (i - d.offset)

/-- `maybeInsert`: appends a new word and returns `_count + _offset`
evaluated after the increment of `_count`; a duplicate insert is a no-op
returning undefined. -/
def Dictionary.maybeInsert (d : Dictionary) (w : JsStr) : Option Nat × Dictionary :=
  match findIdx w d.index with
  | some _ => (none, d)
  | none => (some (d.index.length + 1 + d.offset), { d with index := d.index ++ [w] })

/-- `hasValue`. -/
def Dictionary.hasValue (d : Dictionary) (w : JsStr) : Bool :=
  (findIdx w d.index).isSome

/-- State of a BinaryWriter: the target buffer, the write offset, the last
written scalar (`none` models the private noop sentinel), the active Repeat
run as (offset of its count bytes, count), and the two dictionaries (seed
and runtime-extended).  Gzip is disabled and no extensions are registered in
every configuration the claims name, so neither is carried. -/
structure WState where
  buf : List Nat
  offset : Nat
  last : Option JsVal
  repeatSt : Option (Nat × Nat)
  dictSeed : Dictionary
  dictExt : Dictionary

/-- Store a byte at a position of the buffer, growing it as needed.  The
padding bytes model uninitialised allocated memory; every byte of the prefix
returned by `getBuffer` is written before being returned, so the padding is
never observed. -/
def setAt (l : List Nat) (i v : Nat) : List Nat :=
  if i < l.length then l.set i v
  else l ++ List.replicate (i - l.length) 0 ++ [v]

/-- `writeByte`: store at the current offset and advance. -/
def writeByte (st : WState) (v : Nat) : WState :=
  { st with buf := setAt st.buf st.offset v, offset := st.offset + 1 }

/-- Store a byte list starting at a fixed position without moving the write
offset (as `utf8Write(target, value, offset)` does). -/
def putListAt (l : List Nat) (i : Nat) : List Nat → List Nat
  | [] => l
  | b :: bs => putListAt (setAt l i b) (i + 1) bs

/-- Append a byte list at the current offset, advancing (sequential
`writeByte` calls). -/
def writeBytesSeq (st : WState) (l : List Nat) : WState := l.foldl writeByte st

/-- `writeLength`: the varint length prefix (1 byte below 254, else a 254
marker and three little-endian bytes). -/
def writeLength (st : WState) (v : Nat) : WState :=
  if v < 254 then writeByte st v
  else
    writeByte (writeByte (writeByte (writeByte st 254) (v % 256))
      (v / 2 ^ 8 % 256)) (v / 2 ^ 16 % 256)

/-- `writeInt8` (the source writes the same byte whether or not `signed` is
set: a Uint8Array assignment is ToUint8 either way). -/
def writeInt8 (st : WState) (v : JNum) : WState := writeByte st (byteOf v.trunc)

/-- `writeInt16`: the bytes `value` and `value >> 8` under ToUint8. -/
def writeInt16 (st : WState) (v : JNum) : WState :=
  writeByte (writeByte st (byteOf v.trunc)) (byteOf (v.shr 8))

/-- `writeInt32`: the bytes `value`, `value >> 8`, `value >> 16`,
`value >> 24` under ToUint8 (identical for the signed and unsigned call). -/
def writeInt32 (st : WState) (v : JNum) : WState :=
  writeByte (writeByte (writeByte (writeByte st (byteOf v.trunc))
    (byteOf (v.shr 8))) (byteOf (v.shr 16))) (byteOf (v.shr 24))

/-- `writeDouble`: the value goes through the float64 view and its 8 bit
pattern bytes are emitted little-endian. -/
def writeDouble (st : WState) (v : JNum) : WState :=
  writeBytesSeq st (natLEBytes (doubleBits v) 8)

/-- `writeFloat`: single-precision rounding through the float32 view, then
4 little-endian pattern bytes. -/
def writeFloat (st : WState) (v : JNum) : WState :=
  writeBytesSeq st (natLEBytes (floatBits v) 4)

/-- `writeDate`: for a Date the writer takes `value.getTime()` (epoch
milliseconds) and hands it to `writeDouble` unscaled. -/
def writeDate (st : WState) (t : JNum) : WState := writeDouble st t

/-- `writeBool`: the value lives in the tag byte alone. -/
def writeBool (st : WState) (b : Bool) : WState :=
  writeByte st (if b then 3 else 2)

/-- `writeNull`. -/
def writeNull (st : WState) : WState := writeByte st 4

/-- `writeString`: reserve 1 or 4 header bytes judging by four times the
code-unit count, write the UTF-8 payload after them, then fill the header
with the actual byte count. -/
def writeString (st : WState) (s : JsStr) : WState :=
  let start := st.offset
  let short := s.length * 4 < 254
  let off1 := start + (if short then 1 else 4)
  let bytes := utf8Bytes s
  let buf1 := putListAt st.buf off1 bytes
  let buf2 :=
    if short then setAt buf1 start bytes.length
    else
      putListAt buf1 start
        [254, bytes.length % 256, bytes.length / 2 ^ 8 % 256,
         bytes.length / 2 ^ 16 % 256]
  { st with buf := buf2, offset := off1 + bytes.length }

/-- `writeRepeat`: on the first repeat emit the Repeat tag and remember the
position of the count bytes with count 0; every repeat then rewinds to that
position, increments the count, and rewrites it as a length prefix. -/
def writeRepeat (st : WState) : WState :=
  let st1 :=
    match st.repeatSt with
    | none => let s := writeByte st 20; { s with repeatSt := some (s.offset, 0) }
    | some _ => st
  match st1.repeatSt with
  | some (off, c) =>
    writeLength { st1 with offset := off, repeatSt := some (off, c + 1) } (c + 1)
  | none => st1

/-- `wireDictionary`: look the word up in the seed dictionary, then in the
extended one; on a hit emit DictIndex (18) with the absolute index as a
length prefix, on a miss insert into the extended dictionary and emit
DictValue (17) with the string payload.  The two emissions go through
`writeCore`, whose gzip and no-tag sets do not apply to these codes. -/
def wireDictionary (st : WState) (s : JsStr) : WState :=
  let idx :=
    match st.dictSeed.getIndex s with
    | some i => some i
    | none => st.dictExt.getIndex s
  match idx with
  | none =>
    let st := { st with dictExt := (st.dictExt.maybeInsert s).2 }
    writeString (writeByte st 17) s
  | some i => writeLength (writeByte st 18) i

/-- Encoder failure: no core type matched and no extension claimed the value
(`Invalid core type` TypeError), or the fuel artifact ran out. -/
inductive EncErr where
  | invalidCoreType
  | fuelOut
deriving DecidableEq

mutual
/-- `writeObject`: undefined is a silent no-op; a value with no core type
fails (no extensions are registered); a value strictly equal to the last
written scalar becomes a Repeat run; otherwise the last value is recorded,
the pending run is cleared, and the tagged value is written. -/
def writeObjectF : Nat → WState → JsVal → Except EncErr WState
  | 0, _, _ => .error .fuelOut
  | _ + 1, st, .undef => .ok st
  | f + 1, st, v =>
    let cid := coreType v
    if cid = 0 then .error .invalidCoreType
    else if jsStrictEq st.last v then .ok (writeRepeat st)
    else writeCoreF f { st with last := some v, repeatSt := none } cid v

/-- `writeCore` with gzip disabled: emit the tag byte unless the code is in
the no-tag set {BoolFalse, BoolTrue, Null}, then the payload.  A String of
code-unit length at most 16 rewinds its just-written tag byte and reroutes
through the dictionary path. -/
def writeCoreF : Nat → WState → Nat → JsVal → Except EncErr WState
  | 0, _, _, _ => .error .fuelOut
  | f + 1, st, cid, v =>
    let st := if cid = 2 ∨ cid = 3 ∨ cid = 4 then st else writeByte st cid
    match v with
    | .bool b => .ok (writeBool st b)
    | .null => .ok (writeNull st)
    | .date t => .ok (writeDate st t)
    | .num n =>
      .ok (if cid = 13 ∨ cid = 10 then writeInt8 st n
           else if cid = 12 ∨ cid = 9 then writeInt16 st n
           else if cid = 11 ∨ cid = 8 then writeInt32 st n
           else if cid = 14 then writeFloat st n
           else writeDouble st n)
    | .str s =>
      .ok (if s.length ≤ 16 then wireDictionary { st with offset := st.offset - 1 } s
           else writeString st s)
    | .vec l => writeVecF f (writeLength st l.length) l
    | .map entries =>
      match writeMapF f st entries with
      | .error e => .error e
      | .ok st => .ok (writeByte st 0)
    | _ => .ok st

/-- Body of `writeVector` after its length prefix: undefined entries are
written as a bare Null byte (not through `writeObject`). -/
def writeVecF : Nat → WState → List JsVal → Except EncErr WState
  | 0, _, _ => .error .fuelOut
  | _ + 1, st, [] => .ok st
  | f + 1, st, x :: xs =>
    match x with
    | .undef => writeVecF f (writeNull st) xs
    | _ =>
      match writeObjectF f st x with
      | .error e => .error e
      | .ok st => writeVecF f st xs

/-- Body of `writeMap` before its None terminator: entries with undefined
values are skipped; before each entry the last-written marker is reset to
the noop sentinel, then the key goes through the dictionary path and the
value through `writeObject`. -/
def writeMapF : Nat → WState → List (JsStr × JsVal) → Except EncErr WState
  | 0, _, _ => .error .fuelOut
  | _ + 1, st, [] => .ok st
  | f + 1, st, (k, v) :: rest =>
    match v with
    | .undef => writeMapF f st rest
    | _ =>
      match writeObjectF f (wireDictionary { st with last := none } k) v with
      | .error e => .error e
      | .ok st => writeMapF f st rest
end

/-- A writer as constructed with no options: empty seed dictionary, extended
dictionary based at offset 0 (the seed size). -/
def freshWriter : WState :=
  { buf := [], offset := 0, last := none, repeatSt := none,
    dictSeed := ⟨[], 0⟩, dictExt := ⟨[], 0⟩ }

/-- `encode`: reset offset, last value, repeat state and buffer, write the
value, return the written prefix together with the final writer state
(dictionaries persist across calls).  The fuel argument is an artifact of
the embedding: any fuel at least the nesting depth of the value gives the
real answer, smaller fuel gives the distinguished `fuelOut` error. -/
def encodeBytes (fuel : Nat) (w : WState) (v : JsVal) :
    Except EncErr (List Nat × WState) :=
  let st := { w with buf := [], offset := 0, last := none, repeatSt := none }
  match writeObjectF fuel st v with
  | .error e => .error e
  | .ok st => .ok (st.buf.take st.offset, st)

/-- The byte frame of one `encode` call. -/
def encodeOut (fuel : Nat) (w : WState) (v : JsVal) : Except EncErr (List Nat) :=
  match encodeBytes fuel w v with
  | .error e => .error e
  | .ok (b, _) => .ok b

/-- Decoder failure.  `underrun` and `dynIncomplete` are the two `throw`
sites whose error object carries `incomplete = true`; `invalidConstructor`
is the reject of an unknown tag; `gzipUnsupported` stands for the one branch
the embedding does not model (the pako black box); `fuelOut` is the fuel
artifact. -/
inductive DecodeErr where
  | underrun (need got : Nat)
  | invalidConstructor (tag : Nat)
  | dynIncomplete
  | gzipUnsupported
  | fuelOut
deriving DecidableEq

/-- The `incomplete` marker of a decoder error. -/
def DecodeErr.isIncomplete : DecodeErr → Bool
  | underrun _ _ => true
  | dynIncomplete => true
  | _ => false

/-- State of a BinaryReader: the borrowed input bytes, the read offset,
`_lastObject` (undefined before the first object), the pending Repeat pool,
and the two dictionaries.  The `length` field of the source always equals
the length of the input and is not carried separately. -/
structure RState where
  data : List Nat
  offset : Nat
  lastObject : JsVal
  repeatSt : Option (Nat × JsVal)
  dictSeed : Dictionary
  dictExt : Dictionary

/-- Byte of the input at an absolute position (in-bounds reads are always
guarded by `checkRead` first). -/
def byteAt (st : RState) (i : Nat) : Nat := (st.data.get? i).getD 0

/-- `assertRead`: underrun check before a read of `n` bytes; the thrown
error carries `incomplete = true`. -/
def checkRead (n : Nat) (st : RState) : Except DecodeErr Unit :=
  if st.data.length < st.offset + n then
    .error (.underrun n (st.data.length - st.offset))
  else .ok ()

/-- `readByte`. -/
def readByte (st : RState) : Except DecodeErr (Nat × RState) :=
  match checkRead 1 st with
  | .error e => .error e
  | .ok _ => .ok (byteAt st st.offset, { st with offset := st.offset + 1 })

/-- Little-endian value of the next `n` bytes (no bounds effect; callers
check first). -/
def sliceLE (st : RState) (n : Nat) : Nat :=
  (List.range n).foldr (fun k acc => acc * 256 + byteAt st (st.offset + k)) 0

/-- The next `n` raw bytes (callers check bounds first). -/
def sliceBytes (st : RState) (n : Nat) : List Nat :=
  (List.range n).map (fun k => byteAt st (st.offset + k))

/-- Sequencing of reader steps: propagate the error, otherwise feed the
value and next state onward (the shape of every compound read). -/
def andThen {a b : Type} (x : Except DecodeErr (a × RState))
    (g : a → RState → Except DecodeErr (b × RState)) : Except DecodeErr (b × RState) :=
  match x with
  | .error e => .error e
  | .ok (v, st) => g v st

/-- A bounds-checked raw read of `n` bytes (the assertRead plus subarray
plus offset advance every payload reader performs). -/
def readSlice (n : Nat) (st : RState) : Except DecodeErr (List Nat × RState) :=
  match checkRead n st with
  | .error e => .error e
  | .ok _ => .ok (sliceBytes st n, { st with offset := st.offset + n })

/-- `readLength`: one byte, or a 254 marker followed by three little-endian
bytes. -/
def readLength (st : RState) : Except DecodeErr (Nat × RState) :=
  andThen (readByte st) fun b st1 =>
    if b = 254 then
      andThen (readByte st1) fun b0 st2 =>
        andThen (readByte st2) fun b1 st3 =>
          andThen (readByte st3) fun b2 st4 => .ok (b0 + b1 * 256 + b2 * 65536, st4)
    else .ok (b, st1)

/-- `readInt32`: four little-endian bytes; the `|` chain lands in the signed
32-bit range, and `>>> 0` undoes the sign for the unsigned call. -/
def readInt32 (signed : Bool) (st : RState) : Except DecodeErr (Int × RState) :=
  match checkRead 4 st with
  | .error e => .error e
  | .ok _ =>
    let u := sliceLE st 4
    let v : Int := if signed ∧ 2 ^ 31 ≤ u then (u : Int) - 2 ^ 32 else (u : Int)
    .ok (v, { st with offset := st.offset + 4 })

/-- `readInt16`: two little-endian bytes, sign-extended when signed. -/
def readInt16 (signed : Bool) (st : RState) : Except DecodeErr (Int × RState) :=
  match checkRead 2 st with
  | .error e => .error e
  | .ok _ =>
    let u := sliceLE st 2
    let v : Int := if signed ∧ 2 ^ 15 ≤ u then (u : Int) - 2 ^ 16 else (u : Int)
    .ok (v, { st with offset := st.offset + 2 })

/-- `readInt8`. -/
def readInt8 (signed : Bool) (st : RState) : Except DecodeErr (Int × RState) :=
  match checkRead 1 st with
  | .error e => .error e
  | .ok _ =>
    let u := byteAt st st.offset
    let v : Int := if signed ∧ 2 ^ 7 ≤ u then (u : Int) - 2 ^ 8 else (u : Int)
    .ok (v, { st with offset := st.offset + 1 })

/-- `readFloat`: four pattern bytes through the float32 view. -/
def readFloat (st : RState) : Except DecodeErr (JNum × RState) :=
  match checkRead 4 st with
  | .error e => .error e
  | .ok _ => .ok (bitsToJNum 8 23 (sliceLE st 4), { st with offset := st.offset + 4 })

/-- `readDouble`: eight pattern bytes through the float64 view (the source
reads two int32 words into the shared register). -/
def readDouble (st : RState) : Except DecodeErr (JNum × RState) :=
  match checkRead 8 st with
  | .error e => .error e
  | .ok _ => .ok (bitsToJNum 11 52 (sliceLE st 8), { st with offset := st.offset + 8 })

/-- Multiplication by 1000 as `readDate` performs on the decoded number. -/
def jnumTimes1000 : JNum → JNum
  | .fin q => .fin (q * 1000)
  | x => x

/-- The JS Date constructor clips its millisecond argument: truncate toward
zero, NaN outside the representable range of 8.64e15 milliseconds. -/
def dateClip : JNum → JNum
  | .fin q => if (8640000000000000 : ℚ) < qAbs q then .nan else .fin ((qTrunc q : ℤ) : ℚ)
  | _ => .nan

/-- `readDate`: decode a double and build `new Date(value * 1000)`. -/
def readDate (st : RState) : Except DecodeErr (JsVal × RState) :=
  andThen (readDouble st) fun v st1 => .ok (.date (dateClip (jnumTimes1000 v)), st1)

/-- `readBytes`: length prefix, bounds check, raw sub-slice. -/
def readBytesP (st : RState) : Except DecodeErr (List Nat × RState) :=
  andThen (readLength st) fun n st1 => readSlice n st1

/-- `readString`: length prefix, bounds check, UTF-8 decode of the
sub-slice. -/
def readStringP (st : RState) : Except DecodeErr (JsStr × RState) :=
  andThen (readLength st) fun n st1 =>
    andThen (readSlice n st1) fun bs st2 => .ok (utf8Decode bs, st2)

/-- Result of `readDictionary`: the None terminator, a key, or a DictIndex
that resolved to nothing (the non-null assertion of the source lets the
undefined value through, and the map then binds the property name
"undefined"). -/
inductive DictKey where
  | term
  | key (s : JsStr)
  | missing

/-- `getDictionaryValue`: seed dictionary first, then the extended one. -/
def getDictVal (st : RState) (idx : Nat) : Option JsStr :=
  match st.dictSeed.getValue idx with
  | some s => some s
  | none => st.dictExt.getValue idx

/-- `readDictionary`: DictIndex resolves through the combined dictionary;
DictValue reads a string and inserts it into the extended dictionary; None
terminates; any other tag is rewound one byte and also terminates. -/
def readDictionary (st : RState) : Except DecodeErr (DictKey × RState) :=
  andThen (readByte st) fun c st1 =>
    if c = 18 then
      andThen (readLength st1) fun idx st2 =>
        match getDictVal st2 idx with
        | some s => .ok (.key s, st2)
        | none => .ok (.missing, st2)
    else if c = 17 then
      andThen (readStringP st1) fun s st2 =>
        .ok (.key s, { st2 with dictExt := (st2.dictExt.maybeInsert s).2 })
    else if c = 0 then .ok (.term, st1)
    else .ok (.term, { st1 with offset := st1.offset - 1 })

/-- The UTF-16 code units of the string "undefined", the property name a JS
object records when the key expression evaluates to undefined. -/
def undefinedUnits : JsStr := [117, 110, 100, 101, 102, 105, 110, 101, 100]

/-- JS property write `temp[key] = value`: an existing key keeps its
position and is overwritten, a new key is appended. -/
def objSet (entries : List (JsStr × JsVal)) (k : JsStr) (v : JsVal) :
    List (JsStr × JsVal) :=
  match entries with
  | [] => [(k, v)]
  | (k0, v0) :: rest => if k0 = k then (k0, v) :: rest else (k0, v0) :: objSet rest k v

mutual
/-- `readObject`: serve a pending Repeat pool without consuming bytes, else
read a tag and decode through `readCore` (no extensions are registered in
any modelled configuration). -/
def readObjectF : Nat → RState → Except DecodeErr (JsVal × RState)
  | 0, _ => .error .fuelOut
  | f + 1, st =>
    match st.repeatSt with
    | some (pool, v) =>
      if 0 < pool then .ok (v, { st with repeatSt := some (pool - 1, v) })
      else readObjAfterF f { st with repeatSt := none }
    | none => readObjAfterF f st

/-- Tail of `readObject` after the Repeat pool check: read the tag byte,
decode the payload, and record the result as `_lastObject`. -/
def readObjAfterF : Nat → RState → Except DecodeErr (JsVal × RState)
  | 0, _ => .error .fuelOut
  | f + 1, st =>
    andThen (readByte st) fun c st1 =>
      andThen (readCoreF f c st1) fun v st2 => .ok (v, { st2 with lastObject := v })

/-- `readCore`: the tag dispatch of the decoder.  The gzip branch is the
pako black box and is not modelled; every unknown tag (including DictValue
and DictIndex, which the switch does not handle) raises the non-incomplete
invalid-constructor error. -/
def readCoreF : Nat → Nat → RState → Except DecodeErr (JsVal × RState)
  | 0, _, _ => .error .fuelOut
  | f + 1, c, st =>
    if c = 0 then readObjectF f st
    else if c = 25 then .error .gzipUnsupported
    else if c = 3 then .ok (.bool true, st)
    else if c = 2 then .ok (.bool false, st)
    else if c = 6 then
      andThen (readLength st) fun n st1 => readVecLoopF f n st1 []
    else if c = 7 then readDynLoopF f st []
    else if c = 4 then .ok (.null, st)
    else if c = 1 then
      andThen (readBytesP st) fun bs st1 => .ok (.bytes bs, st1)
    else if c = 19 then
      andThen (readStringP st) fun s st1 => .ok (.str s, st1)
    else if c = 5 then readDate st
    else if c = 8 then
      andThen (readInt32 true st) fun i st1 => .ok (.num (.fin i), st1)
    else if c = 9 then
      andThen (readInt16 true st) fun i st1 => .ok (.num (.fin i), st1)
    else if c = 10 then
      andThen (readInt8 true st) fun i st1 => .ok (.num (.fin i), st1)
    else if c = 11 then
      andThen (readInt32 false st) fun i st1 => .ok (.num (.fin i), st1)
    else if c = 12 then
      andThen (readInt16 false st) fun i st1 => .ok (.num (.fin i), st1)
    else if c = 13 then
      andThen (readInt8 false st) fun i st1 => .ok (.num (.fin i), st1)
    else if c = 14 then
      andThen (readFloat st) fun x st1 => .ok (.num x, st1)
    else if c = 15 then
      andThen (readDouble st) fun x st1 => .ok (.num x, st1)
    else if c = 16 then readMapLoopF f st []
    else if c = 20 then
      andThen (readLength st) fun size st1 =>
        .ok (st1.lastObject, { st1 with repeatSt := some (size - 1, st1.lastObject) })
    else .error (.invalidConstructor c)

/-- Body of `readVector` after its length prefix: exactly `n` objects. -/
def readVecLoopF : Nat → Nat → RState → List JsVal → Except DecodeErr (JsVal × RState)
  | 0, _, _, _ => .error .fuelOut
  | _ + 1, 0, st, acc => .ok (.vec acc.reverse, st)
  | f + 1, n + 1, st, acc =>
    andThen (readObjectF f st) fun v st1 => readVecLoopF f n st1 (v :: acc)

/-- Body of `readMap`: keys through `readDictionary` until the terminator,
values through `readObject`. -/
def readMapLoopF : Nat → RState → List (JsStr × JsVal) → Except DecodeErr (JsVal × RState)
  | 0, _, _ => .error .fuelOut
  | f + 1, st, acc =>
    andThen (readDictionary st) fun k st1 =>
      match (match k with
             | .term => none
             | .key s => some s
             | .missing => some undefinedUnits : Option JsStr) with
      | none => .ok (.map acc, st1)
      | some s =>
        andThen (readObjectF f st1) fun v st2 => readMapLoopF f st2 (objSet acc s v)

/-- Body of `readVectorDynamic`: while input remains, read a tag; None ends
the vector, anything else decodes through `readCore` directly (bypassing the
Repeat pool and `_lastObject` update); running out of input before the
terminator raises the incomplete dynamic-vector error. -/
def readDynLoopF : Nat → RState → List JsVal → Except DecodeErr (JsVal × RState)
  | 0, _, _ => .error .fuelOut
  | f + 1, st, acc =>
    if st.offset < st.data.length then
      andThen (readByte st) fun c st1 =>
        if c = 0 then .ok (.vec acc.reverse, st1)
        else andThen (readCoreF f c st1) fun v st2 => readDynLoopF f st2 (v :: acc)
    else .error .dynIncomplete
end

/-- A reader as constructed with no options (or reset by `decode`): empty
seed dictionary, extended dictionary based at offset 0. -/
def initReader (data : List Nat) : RState :=
  { data, offset := 0, lastObject := .undef, repeatSt := none,
    dictSeed := ⟨[], 0⟩, dictExt := ⟨[], 0⟩ }

/-- `decode`: read one top-level object from the start of the buffer. -/
def runDecode (fuel : Nat) (data : List Nat) : Except DecodeErr (JsVal × RState) :=
  readObjectF fuel (initReader data)

/-- `decode` together with the number of bytes it consumed. -/
def runDecodeN (fuel : Nat) (data : List Nat) : Except DecodeErr (JsVal × Nat) :=
  match runDecode fuel data with
  | .error e => .error e
  | .ok (v, st) => .ok (v, st.offset)

/-- The error of a decode outcome, if any. -/
def decErrOf : Except DecodeErr (JsVal × Nat) → Option DecodeErr
  | .error e => some e
  | .ok _ => none

instance {e a : Type} [DecidableEq e] [DecidableEq a] : DecidableEq (Except e a) :=
  fun x y =>
    match x, y with
    | .error v, .error w =>
      if h : v = w then .isTrue (h ▸ rfl) else .isFalse (fun hh => h (Except.error.inj hh))
    | .ok v, .ok w =>
      if h : v = w then .isTrue (h ▸ rfl) else .isFalse (fun hh => h (Except.ok.inj hh))
    | .error _, .ok _ => .isFalse (fun hh => Except.noConfusion hh)
    | .ok _, .error _ => .isFalse (fun hh => Except.noConfusion hh)

/-- View of a decode outcome as a Date result (the carried number and the
consumed byte count), for statements about Date frames. -/
def decOutDate : Except DecodeErr (JsVal × Nat) → Option (JNum × Nat)
  | .ok (.date t, n) => some (t, n)
  | _ => none

/-- View of a decode outcome as a numeric result. -/
def decOutNum : Except DecodeErr (JsVal × Nat) → Option (JNum × Nat)
  | .ok (.num x, n) => some (x, n)
  | _ => none

/-- The numbers of a list of values, when every element is a number. -/
def numsOf : List JsVal → Option (List JNum)
  | [] => some []
  | .num x :: rest => (numsOf rest).map (x :: ·)
  | _ :: _ => none

/-- View of a decode outcome as a vector of numbers. -/
def decOutNums : Except DecodeErr (JsVal × Nat) → Option (List JNum × Nat)
  | .ok (.vec l, n) => (numsOf l).map ((·, n))
  | _ => none

/-- Truncation of the input of a reader state to its first k bytes. -/
def trunc (k : Nat) (st : RState) : RState := { st with data := st.data.take k }

/-- The simulation property of a reader step: it never changes the input,
it ends at or before the end of the input (or where it started), and on
input truncated at any point past its start it either fails with an error
carrying the incomplete marker, or behaves identically while staying within
the truncation point. -/
def Sim {a : Type} (F : RState → Except DecodeErr (a × RState)) : Prop :=
  ∀ st v st', F st = .ok (v, st') →
    st'.data = st.data ∧
    st'.offset ≤ max st.offset st.data.length ∧
    ∀ k, st.offset ≤ k → k ≤ st.data.length →
      (∃ e, F (trunc k st) = .error e ∧ e.isIncomplete = true) ∨
      (F (trunc k st) = .ok (v, trunc k st') ∧ st'.offset ≤ k)

theorem setAt_length (l : List Nat) (i v : Nat) :
    (setAt l i v).length = max l.length (i + 1) := by
  unfold setAt; split
  · simp; omega
  · simp [List.length_append, List.length_replicate]; omega

theorem setAt_get?_lt {l : List Nat} {i j : Nat} (v : Nat) (hj : j < i) (hl : j < l.length) :
    (setAt l i v).get? j = l.get? j := by
  unfold setAt; split
  · rw [List.get?_eq_getElem?, List.get?_eq_getElem?, List.getElem?_set_ne (by omega)]
  · rw [List.get?_eq_getElem?, List.get?_eq_getElem?, List.append_assoc,
      List.getElem?_append_left hl]

theorem putListAt_length_ge (bs : List Nat) (l : List Nat) (i : Nat) :
    l.length ≤ (putListAt l i bs).length := by
  induction bs generalizing l i with
  | nil => simp [putListAt]
  | cons b bs ih =>
    calc l.length ≤ (setAt l i b).length := by rw [setAt_length]; omega
    _ ≤ _ := ih _ _

theorem putListAt_get?_lt (bs : List Nat) {l : List Nat} {i j : Nat} (hj : j < i)
    (hl : j < l.length) : (putListAt l i bs).get? j = l.get? j := by
  induction bs generalizing l i with
  | nil => rfl
  | cons b bs ih =>
    rw [putListAt, ih (by omega) (by rw [setAt_length]; omega), setAt_get?_lt b hj hl]

theorem writeString_dictSeed (st : WState) (s : JsStr) :
    (writeString st s).dictSeed = st.dictSeed := rfl

theorem writeString_dictExt (st : WState) (s : JsStr) :
    (writeString st s).dictExt = st.dictExt := rfl

theorem writeString_offset (st : WState) (s : JsStr) :
    (writeString st s).offset =
      st.offset + (if s.length * 4 < 254 then 1 else 4) + (utf8Bytes s).length := rfl

theorem writeString_buf_get?_lt (st : WState) (s : JsStr) {j : Nat}
    (hj : j < st.offset) (hl : j < st.buf.length) :
    (writeString st s).buf.get? j = st.buf.get? j := by
  unfold writeString
  by_cases hsh : s.length * 4 < 254 <;>
    simp only [hsh, if_true, if_false, ite_true, ite_false]
  · rw [setAt_get?_lt _ hj
      (lt_of_lt_of_le hl (putListAt_length_ge _ _ _)), putListAt_get?_lt _ (by omega) hl]
  · rw [putListAt_get?_lt _ hj
      (lt_of_lt_of_le hl (putListAt_length_ge _ _ _)), putListAt_get?_lt _ (by omega) hl]

theorem encodeStr_short (w : WState) (s : JsStr) (hs : s.length ≤ 16)
    (hseed : w.dictSeed = ⟨[], 0⟩) (hext : w.dictExt = ⟨[], 0⟩) :
    encodeBytes 4 w (.str s) =
      .ok ((writeString ⟨[17], 1, some (.str s), none, ⟨[], 0⟩, ⟨[s], 0⟩⟩ s).buf.take
            (writeString ⟨[17], 1, some (.str s), none, ⟨[], 0⟩, ⟨[s], 0⟩⟩ s).offset,
          writeString ⟨[17], 1, some (.str s), none, ⟨[], 0⟩, ⟨[s], 0⟩⟩ s) := by
  simp only [encodeBytes, writeObjectF, writeCoreF, coreType, jsStrictEq, wireDictionary,
    writeByte, setAt, Dictionary.getIndex, Dictionary.maybeInsert, findIdx, hseed, hext,
    hs, if_pos, if_neg]
  norm_num

theorem encodeStr_short_second (w : WState) (s : JsStr) (hs : s.length ≤ 16)
    (hseed : w.dictSeed = ⟨[], 0⟩) (hext : w.dictExt = ⟨[s], 0⟩) :
    ∃ w2, encodeBytes 4 w (.str s) = .ok ([18, 0], w2) := by
  simp only [encodeBytes, writeObjectF, writeCoreF, coreType, jsStrictEq, wireDictionary,
    writeByte, writeLength, setAt, Dictionary.getIndex, Dictionary.maybeInsert, findIdx,
    hseed, hext, hs, if_pos, if_neg]
  norm_num

theorem encodeStr_long (w : WState) (s : JsStr) (hs : ¬ s.length ≤ 16) :
    encodeBytes 4 w (.str s) =
      .ok ((writeString ⟨[19], 1, some (.str s), none, w.dictSeed, w.dictExt⟩ s).buf.take
            (writeString ⟨[19], 1, some (.str s), none, w.dictSeed, w.dictExt⟩ s).offset,
          writeString ⟨[19], 1, some (.str s), none, w.dictSeed, w.dictExt⟩ s) := by
  simp only [encodeBytes, writeObjectF, writeCoreF, coreType, jsStrictEq,
    writeByte, setAt, hs, if_pos, if_neg]
  norm_num

theorem writeString_offset_pos (st : WState) (s : JsStr) (h : 0 < st.offset) :
    0 < (writeString st s).offset := by
  rw [writeString_offset]; omega

theorem take_head {l : List Nat} {n : Nat} (hn : 0 < n) :
    (l.take n).head? = l.get? 0 := by
  rw [List.head?_eq_getElem?, List.getElem?_take_of_lt hn, List.get?_eq_getElem?]

theorem writeString_frame_head (st : WState) (s : JsStr) (h1 : 0 < st.offset)
    (h2 : 0 < st.buf.length) :
    ((writeString st s).buf.take (writeString st s).offset).head? = st.buf.get? 0 := by
  rw [take_head (writeString_offset_pos _ _ h1), writeString_buf_get?_lt _ _ h1 h2]

/-- C6: with gzip disabled, a string of code-unit length at most 16 is
routed through the dictionary path: on a fresh encoder its first occurrence
is emitted as a DictValue frame (first byte 17) and a second encode of the
same string emits exactly the DictIndex frame 12 00 (tag 18, absolute index
0); a string of 17 or more code units is emitted with the String tag (19)
and full payload both times. -/
theorem C6_short_string_interning (s : JsStr) :
    ∀ b1 w1 b2 w2, encodeBytes 4 freshWriter (.str s) = .ok (b1, w1) →
      encodeBytes 4 w1 (.str s) = .ok (b2, w2) →
      (s.length ≤ 16 → b1.head? = some 17 ∧ b2 = [18, 0]) ∧
      (17 ≤ s.length → b1.head? = some 19 ∧ b2.head? = some 19) := by
  intro b1 w1 b2 w2 h1 h2
  by_cases hs : s.length ≤ 16
  · refine ⟨fun _ => ?_, fun h17 => absurd h17 (by omega)⟩
    rw [encodeStr_short freshWriter s hs rfl rfl] at h1
    simp only [Except.ok.injEq, Prod.mk.injEq] at h1
    obtain ⟨hb1, hw1⟩ := h1
    constructor
    · rw [← hb1, writeString_frame_head ⟨[17], 1, some (.str s), none, ⟨[], 0⟩, ⟨[s], 0⟩⟩
        s Nat.one_pos Nat.one_pos]
      rfl
    · obtain ⟨w2x, h2x⟩ := encodeStr_short_second w1 s hs
        (by rw [← hw1, writeString_dictSeed]) (by rw [← hw1, writeString_dictExt])
      rw [h2x] at h2
      simp only [Except.ok.injEq, Prod.mk.injEq] at h2
      exact h2.1.symm
  · refine ⟨fun h16 => absurd h16 hs, fun _ => ?_⟩
    rw [encodeStr_long freshWriter s hs] at h1
    simp only [Except.ok.injEq, Prod.mk.injEq] at h1
    obtain ⟨hb1, hw1⟩ := h1
    rw [encodeStr_long w1 s hs] at h2
    simp only [Except.ok.injEq, Prod.mk.injEq] at h2
    obtain ⟨hb2, hw2⟩ := h2
    constructor
    · rw [← hb1, writeString_frame_head
        ⟨[19], 1, some (.str s), none, freshWriter.dictSeed, freshWriter.dictExt⟩ s
        Nat.one_pos Nat.one_pos]
      rfl
    · rw [← hb2, writeString_frame_head
        ⟨[19], 1, some (.str s), none, w1.dictSeed, w1.dictExt⟩ s
        Nat.one_pos Nat.one_pos]
      rfl


/-- C6 witness at the one-character string "a": the first frame starts with
the DictValue tag and the second frame is the DictIndex frame. -/
theorem C6_short_string_interning_witness :
    ([17, 1, 97] : List Nat).head? = some 17 ∧ ([18, 0] : List Nat) = [18, 0] :=
  (C6_short_string_interning [97] [17, 1, 97]
      ⟨[17, 1, 97], 3, some (.str [97]), none, ⟨[], 0⟩, ⟨[[97]], 0⟩⟩ [18, 0]
      ⟨[18, 0], 2, some (.str [97]), none, ⟨[], 0⟩, ⟨[[97]], 0⟩⟩
      rfl rfl).1 (by decide)

theorem trunc_data_length (k : Nat) (st : RState) :
    (trunc k st).data.length = min k st.data.length := by
  simp [trunc]

theorem trunc_offset (k : Nat) (st : RState) : (trunc k st).offset = st.offset := rfl

theorem byteAt_trunc {k i : Nat} (st : RState) (h : i < k) :
    byteAt (trunc k st) i = byteAt st i := by
  simp only [byteAt, trunc, List.get?_eq_getElem?, List.getElem?_take_of_lt h]

theorem foldrByte_congr (l : List Nat) (f g : Nat → Nat) (h : ∀ x ∈ l, f x = g x) :
    l.foldr (fun x acc => acc * 256 + f x) 0 = l.foldr (fun x acc => acc * 256 + g x) 0 := by
  induction l with
  | nil => rfl
  | cons x xs ih =>
    simp only [List.foldr_cons]
    rw [h x (by simp), ih (fun y hy => h y (by simp [hy]))]

theorem sliceLE_trunc {k : Nat} (st : RState) (n : Nat) (h : st.offset + n ≤ k) :
    sliceLE (trunc k st) n = sliceLE st n := by
  unfold sliceLE
  simp only [trunc_offset]
  refine foldrByte_congr (List.range n) _ _ (fun x hx => byteAt_trunc st ?_)
  have := List.mem_range.mp hx
  omega

theorem sliceBytes_trunc {k : Nat} (st : RState) (n : Nat) (h : st.offset + n ≤ k) :
    sliceBytes (trunc k st) n = sliceBytes st n := by
  unfold sliceBytes
  simp only [trunc_offset]
  refine List.map_congr_left (fun x hx => ?_)
  refine byteAt_trunc st ?_
  have := List.mem_range.mp hx
  omega

theorem checkRead_ok {n : Nat} {st : RState} {u : Unit} (h : checkRead n st = .ok u) :
    st.offset + n ≤ st.data.length := by
  unfold checkRead at h
  split at h
  · exact absurd h (by simp)
  · omega

theorem checkRead_trunc_ok {n k : Nat} {st : RState} (hk : st.offset + n ≤ k)
    (hlen : st.offset + n ≤ st.data.length) : checkRead n (trunc k st) = .ok () := by
  unfold checkRead
  rw [if_neg]
  rw [trunc_data_length, trunc_offset]
  omega

theorem checkRead_trunc_err {n k : Nat} {st : RState} (hk : k < st.offset + n)
    (hkl : k ≤ st.data.length) :
    ∃ e, checkRead n (trunc k st) = .error e ∧ e.isIncomplete = true := by
  unfold checkRead
  rw [if_pos (by rw [trunc_data_length, trunc_offset]; omega)]
  exact ⟨_, rfl, rfl⟩

theorem sim_readByte : Sim readByte := by
  intro st v st' h
  unfold readByte at h
  cases hc : checkRead 1 st with
  | error e => rw [hc] at h; exact absurd h (by simp)
  | ok u =>
    rw [hc] at h
    simp only [Except.ok.injEq, Prod.mk.injEq] at h
    obtain ⟨hv, hst⟩ := h
    have hlen := checkRead_ok hc
    refine ⟨by rw [← hst], by rw [← hst]; show st.offset + 1 ≤ _; omega, ?_⟩
    intro k hk hkl
    by_cases hkn : st.offset + 1 ≤ k
    · right
      unfold readByte
      rw [checkRead_trunc_ok hkn hlen]
      refine ⟨?_, by rw [← hst]; exact hkn⟩
      simp only [trunc_offset]
      rw [byteAt_trunc st (by omega)]
      rw [← hst, ← hv]
      rfl
    · left
      unfold readByte
      obtain ⟨e, he, hinc⟩ := @checkRead_trunc_err 1 k st (by omega) hkl
      rw [he]
      exact ⟨e, rfl, hinc⟩

theorem Sim.bind {a b : Type} {F : RState → Except DecodeErr (a × RState)}
    {G : a → RState → Except DecodeErr (b × RState)}
    (hF : Sim F) (hG : ∀ x, Sim (G x)) :
    Sim (fun st => andThen (F st) G) := by
  intro st v st' h
  simp only [] at h
  cases hFst : F st with
  | error e => rw [hFst] at h; exact absurd h (by simp [andThen])
  | ok p =>
    obtain ⟨x, st1⟩ := p
    rw [hFst] at h
    simp only [andThen] at h
    obtain ⟨hd1, hb1, hsim1⟩ := hF st x st1 hFst
    obtain ⟨hd2, hb2, hsim2⟩ := hG x st1 v st' h
    refine ⟨by rw [hd2, hd1], by rw [hd1] at hb2; omega, ?_⟩
    intro k hk hkl
    rcases hsim1 k hk hkl with ⟨e, he, hinc⟩ | ⟨hok, hoff⟩
    · left
      exact ⟨e, by simp only [andThen, he], hinc⟩
    · have hkl1 : k ≤ st1.data.length := by rw [hd1]; exact hkl
      rcases hsim2 k hoff hkl1 with ⟨e, he, hinc⟩ | ⟨hok2, hoff2⟩
      · left
        refine ⟨e, ?_, hinc⟩
        simp only [andThen, hok]
        exact he
      · right
        refine ⟨?_, hoff2⟩
        simp only [andThen, hok]
        exact hok2

theorem Sim.pure {a : Type} (h : RState → a) (g : RState → RState)
    (hdata : ∀ st, (g st).data = st.data)
    (hoff : ∀ st, (g st).offset ≤ st.offset)
    (hcommh : ∀ k st, h (trunc k st) = h st)
    (hcomm : ∀ k st, g (trunc k st) = trunc k (g st)) :
    Sim (fun st => .ok (h st, g st)) := by
  intro st v st' hh
  simp only [Except.ok.injEq, Prod.mk.injEq] at hh
  obtain ⟨hv, hst⟩ := hh
  refine ⟨by rw [← hst, hdata], by rw [← hst]; have := hoff st; omega, ?_⟩
  intro k hk hkl
  right
  refine ⟨?_, by rw [← hst]; have := hoff st; omega⟩
  show Except.ok (h (trunc k st), g (trunc k st)) = Except.ok (v, trunc k st')
  rw [hcommh, hcomm, hv, hst]

theorem sim_checked {a : Type} (n : Nat) (val : RState → a)
    (hval : ∀ k st, st.offset + n ≤ k → val (trunc k st) = val st) :
    Sim (fun st => match checkRead n st with
      | .error e => .error e
      | .ok _ => .ok (val st, { st with offset := st.offset + n })) := by
  intro st v st' h
  simp only [] at h
  cases hc : checkRead n st with
  | error e => rw [hc] at h; exact absurd h (by simp)
  | ok u =>
    rw [hc] at h
    simp only [Except.ok.injEq, Prod.mk.injEq] at h
    obtain ⟨hv, hst⟩ := h
    have hlen := checkRead_ok hc
    refine ⟨by rw [← hst], by rw [← hst]; show st.offset + n ≤ _; omega, ?_⟩
    intro k hk hkl
    by_cases hkn : st.offset + n ≤ k
    · right
      refine ⟨?_, by rw [← hst]; exact hkn⟩
      simp only [checkRead_trunc_ok hkn hlen]
      rw [hval k st hkn, hv, ← hst]
      rfl
    · left
      obtain ⟨e, he, hinc⟩ := @checkRead_trunc_err n k st (by omega) hkl
      exact ⟨e, by simp only [he], hinc⟩

theorem sim_readSlice (n : Nat) : Sim (readSlice n) :=
  sim_checked n (fun st => sliceBytes st n) (fun k st h => sliceBytes_trunc st n h)

theorem sim_readInt32 (sg : Bool) : Sim (readInt32 sg) :=
  sim_checked 4
    (fun st =>
      ((if sg ∧ 2 ^ 31 ≤ sliceLE st 4 then (sliceLE st 4 : Int) - 2 ^ 32
        else (sliceLE st 4 : Int)) : Int))
    (fun k st h => by simp only []; rw [sliceLE_trunc st 4 h])

theorem sim_readInt16 (sg : Bool) : Sim (readInt16 sg) :=
  sim_checked 2
    (fun st =>
      ((if sg ∧ 2 ^ 15 ≤ sliceLE st 2 then (sliceLE st 2 : Int) - 2 ^ 16
        else (sliceLE st 2 : Int)) : Int))
    (fun k st h => by simp only []; rw [sliceLE_trunc st 2 h])

theorem sim_readInt8 (sg : Bool) : Sim (readInt8 sg) :=
  sim_checked 1
    (fun st =>
      ((if sg ∧ 2 ^ 7 ≤ byteAt st st.offset then (byteAt st st.offset : Int) - 2 ^ 8
        else (byteAt st st.offset : Int)) : Int))
    (fun k st h => by simp only []; rw [trunc_offset, byteAt_trunc st (by omega)])

theorem sim_readFloat : Sim readFloat :=
  sim_checked 4 (fun st => bitsToJNum 8 23 (sliceLE st 4))
    (fun k st h => by simp only []; rw [sliceLE_trunc st 4 h])

theorem sim_readDouble : Sim readDouble :=
  sim_checked 8 (fun st => bitsToJNum 11 52 (sliceLE st 8))
    (fun k st h => by simp only []; rw [sliceLE_trunc st 8 h])

theorem sim_readLength : Sim readLength := by
  refine Sim.bind sim_readByte (fun b => ?_)
  by_cases hb : b = 254
  · simp only [hb, if_pos rfl]
    refine Sim.bind sim_readByte (fun b0 => ?_)
    refine Sim.bind sim_readByte (fun b1 => ?_)
    refine Sim.bind sim_readByte (fun b2 => ?_)
    exact Sim.pure _ id (fun _ => rfl) (fun _ => le_refl _) (fun _ _ => rfl) (fun _ _ => rfl)
  · simp only [hb, if_false]
    exact Sim.pure _ id (fun _ => rfl) (fun _ => le_refl _) (fun _ _ => rfl) (fun _ _ => rfl)

theorem Sim.congr {a : Type} {F G : RState → Except DecodeErr (a × RState)}
    (hFG : ∀ st, F st = G st) (h : Sim G) : Sim F := by
  intro st v st' hh
  rw [hFG] at hh
  obtain ⟨hd, hb, hsim⟩ := h st v st' hh
  refine ⟨hd, hb, fun k hk hkl => ?_⟩
  rw [hFG]
  exact hsim k hk hkl

theorem sim_err {a : Type} (e0 : DecodeErr) :
    Sim (fun _ => (.error e0 : Except DecodeErr (a × RState))) := by
  intro st v st' h
  exact absurd h (by simp)

theorem sim_readDate : Sim readDate := by
  refine Sim.bind sim_readDouble (fun x => ?_)
  exact Sim.pure _ _ (fun _ => rfl) (fun _ => le_refl _) (fun _ _ => rfl) (fun _ _ => rfl)

theorem sim_readBytesP : Sim readBytesP :=
  Sim.bind sim_readLength (fun n => sim_readSlice n)

theorem sim_readStringP : Sim readStringP := by
  refine Sim.bind sim_readLength (fun n => ?_)
  refine Sim.bind (sim_readSlice n) (fun bs => ?_)
  exact Sim.pure _ _ (fun _ => rfl) (fun _ => le_refl _) (fun _ _ => rfl) (fun _ _ => rfl)

theorem sim_dictLookup (idx : Nat) :
    Sim (fun st2 => match getDictVal st2 idx with
      | some s => .ok (DictKey.key s, st2)
      | none => .ok (.missing, st2)) := by
  intro st v st' h
  simp only [] at h
  have htr : ∀ k, getDictVal (trunc k st) idx = getDictVal st idx := fun _ => rfl
  cases hgv : getDictVal st idx with
  | some s =>
    rw [hgv] at h
    simp only [Except.ok.injEq, Prod.mk.injEq] at h
    obtain ⟨hv, hst⟩ := h
    refine ⟨by rw [← hst], by rw [← hst]; omega, ?_⟩
    intro k hk hkl
    right
    refine ⟨?_, by rw [← hst]; exact hk⟩
    show (match getDictVal st idx with
      | some s => Except.ok (DictKey.key s, trunc k st)
      | none => Except.ok (DictKey.missing, trunc k st)) = Except.ok (v, trunc k st')
    simp only [hgv]
    rw [hv, hst]
  | none =>
    rw [hgv] at h
    simp only [Except.ok.injEq, Prod.mk.injEq] at h
    obtain ⟨hv, hst⟩ := h
    refine ⟨by rw [← hst], by rw [← hst]; omega, ?_⟩
    intro k hk hkl
    right
    refine ⟨?_, by rw [← hst]; exact hk⟩
    show (match getDictVal st idx with
      | some s => Except.ok (DictKey.key s, trunc k st)
      | none => Except.ok (DictKey.missing, trunc k st)) = Except.ok (v, trunc k st')
    simp only [hgv]
    rw [hv, hst]

theorem sim_readDictionary : Sim readDictionary := by
  refine Sim.bind sim_readByte (fun c => ?_)
  by_cases h18 : c = 18
  · simp only [if_pos h18]
    exact Sim.bind sim_readLength (fun idx => sim_dictLookup idx)
  · simp only [if_neg h18]
    by_cases h17 : c = 17
    · simp only [if_pos h17]
      refine Sim.bind sim_readStringP (fun s => ?_)
      exact Sim.pure _ _ (fun _ => rfl) (fun _ => le_refl _) (fun _ _ => rfl) (fun _ _ => rfl)
    · simp only [if_neg h17]
      by_cases h0 : c = 0
      · simp only [if_pos h0]
        exact Sim.pure _ _ (fun _ => rfl) (fun _ => le_refl _)
          (fun _ _ => rfl) (fun _ _ => rfl)
      · simp only [if_neg h0]
        exact Sim.pure _ _ (fun _ => rfl) (fun _ => Nat.sub_le _ _) (fun _ _ => rfl) (fun _ _ => rfl)

theorem sim_fueled : ∀ f : Nat,
    Sim (readObjectF f) ∧ Sim (readObjAfterF f) ∧ (∀ c, Sim (readCoreF f c)) ∧
    (∀ n acc, Sim (fun st => readVecLoopF f n st acc)) ∧
    (∀ acc, Sim (fun st => readMapLoopF f st acc)) ∧
    (∀ acc, Sim (fun st => readDynLoopF f st acc)) := by
  intro f
  induction f with
  | zero =>
    refine ⟨?_, ?_, ?_, ?_, ?_, ?_⟩
    · intro st v st' h
      exact absurd h (by simp [readObjectF])
    · intro st v st' h
      exact absurd h (by simp [readObjAfterF])
    · intro c st v st' h
      exact absurd h (by simp [readCoreF])
    · intro n acc st v st' h
      exact absurd h (by simp [readVecLoopF])
    · intro acc st v st' h
      exact absurd h (by simp [readMapLoopF])
    · intro acc st v st' h
      exact absurd h (by simp [readDynLoopF])
  | succ f ih =>
    obtain ⟨ihObj, ihAfter, ihCore, ihVec, ihMap, ihDyn⟩ := ih
    have hAfter : Sim (readObjAfterF (f + 1)) := by
      have hb : Sim (fun st => andThen (readByte st) (fun c st1 =>
          andThen (readCoreF f c st1) (fun v st2 =>
            Except.ok (v, { st2 with lastObject := v })))) := by
        refine Sim.bind sim_readByte (fun c => ?_)
        refine Sim.bind (ihCore c) (fun v => ?_)
        exact Sim.pure (fun _ => v) (fun st2 => { st2 with lastObject := v })
          (fun _ => rfl) (fun _ => le_refl _) (fun _ _ => rfl) (fun _ _ => rfl)
      exact Sim.congr (fun s0 => by simp only [readObjAfterF]) hb
    have hObj : Sim (readObjectF (f + 1)) := by
      intro st v st' h
      simp only [readObjectF] at h
      split at h
      · rename_i pool w hrep
        have heqt : ∀ k, readObjectF (f + 1) (trunc k st) =
            (if 0 < pool then
              Except.ok (w, trunc k { st with repeatSt := some (pool - 1, w) })
             else readObjAfterF f (trunc k { st with repeatSt := none })) := by
          intro k
          simp only [readObjectF]
          rw [show (trunc k st).repeatSt = some (pool, w) from hrep]
          rfl
        by_cases hp : 0 < pool
        · rw [if_pos hp] at h
          simp only [Except.ok.injEq, Prod.mk.injEq] at h
          obtain ⟨hv, hst⟩ := h
          refine ⟨by rw [← hst], ?_, ?_⟩
          · rw [← hst]
            exact le_max_left _ _
          intro k hk hkl
          right
          refine ⟨?_, by rw [← hst]; exact hk⟩
          rw [heqt k, if_pos hp, hst, hv]
        · rw [if_neg hp] at h
          obtain ⟨hd, hb, hsim⟩ := ihAfter _ v st' h
          refine ⟨hd, hb, fun k hk hkl => ?_⟩
          rcases hsim k hk hkl with ⟨e, he, hinc⟩ | ⟨hok, hoff⟩
          · left
            refine ⟨e, ?_, hinc⟩
            rw [heqt k, if_neg hp]
            exact he
          · right
            refine ⟨?_, hoff⟩
            rw [heqt k, if_neg hp]
            exact hok
      · rename_i hrep
        have heqt : ∀ k, readObjectF (f + 1) (trunc k st) = readObjAfterF f (trunc k st) := by
          intro k
          simp only [readObjectF]
          rw [show (trunc k st).repeatSt = none from hrep]
        obtain ⟨hd, hb, hsim⟩ := ihAfter st v st' h
        refine ⟨hd, hb, fun k hk hkl => ?_⟩
        rcases hsim k hk hkl with ⟨e, he, hinc⟩ | ⟨hok, hoff⟩
        · exact Or.inl ⟨e, by rw [heqt k]; exact he, hinc⟩
        · exact Or.inr ⟨by rw [heqt k]; exact hok, hoff⟩
    have hCore : ∀ c, Sim (readCoreF (f + 1) c) := by
      intro c
      by_cases h0 : c = 0
      · subst h0
        exact Sim.congr (fun s0 => by simp +decide only [readCoreF, if_true, if_false]) ihObj
      by_cases h25 : c = 25
      · subst h25
        exact Sim.congr (fun s0 => by simp +decide only [readCoreF, if_true, if_false])
          (sim_err DecodeErr.gzipUnsupported)
      by_cases h3 : c = 3
      · subst h3
        have hb : Sim (fun st =>
            (Except.ok (JsVal.bool true, st) : Except DecodeErr (JsVal × RState))) :=
          Sim.pure (fun _ => JsVal.bool true) (fun st => st) (fun _ => rfl)
            (fun _ => le_refl _) (fun _ _ => rfl) (fun _ _ => rfl)
        exact Sim.congr (fun s0 => by simp +decide only [readCoreF, if_true, if_false]) hb
      by_cases h2 : c = 2
      · subst h2
        have hb : Sim (fun st =>
            (Except.ok (JsVal.bool false, st) : Except DecodeErr (JsVal × RState))) :=
          Sim.pure (fun _ => JsVal.bool false) (fun st => st) (fun _ => rfl)
            (fun _ => le_refl _) (fun _ _ => rfl) (fun _ _ => rfl)
        exact Sim.congr (fun s0 => by simp +decide only [readCoreF, if_true, if_false]) hb
      by_cases h6 : c = 6
      · subst h6
        have hb : Sim (fun st => andThen (readLength st) (fun n st1 =>
            readVecLoopF f n st1 [])) :=
          Sim.bind sim_readLength (fun n => ihVec n [])
        exact Sim.congr (fun s0 => by simp +decide only [readCoreF, if_true, if_false]) hb
      by_cases h7 : c = 7
      · subst h7
        exact Sim.congr (fun s0 => by simp +decide only [readCoreF, if_true, if_false]) (ihDyn [])
      by_cases h4 : c = 4
      · subst h4
        have hb : Sim (fun st =>
            (Except.ok (JsVal.null, st) : Except DecodeErr (JsVal × RState))) :=
          Sim.pure (fun _ => JsVal.null) (fun st => st) (fun _ => rfl)
            (fun _ => le_refl _) (fun _ _ => rfl) (fun _ _ => rfl)
        exact Sim.congr (fun s0 => by simp +decide only [readCoreF, if_true, if_false]) hb
      by_cases h1 : c = 1
      · subst h1
        have hb : Sim (fun st => andThen (readBytesP st) (fun bs st1 =>
            Except.ok (JsVal.bytes bs, st1))) := by
          refine Sim.bind sim_readBytesP (fun bs => ?_)
          exact Sim.pure (fun _ => JsVal.bytes bs) (fun st => st) (fun _ => rfl)
            (fun _ => le_refl _) (fun _ _ => rfl) (fun _ _ => rfl)
        exact Sim.congr (fun s0 => by simp +decide only [readCoreF, if_true, if_false]) hb
      by_cases h19 : c = 19
      · subst h19
        have hb : Sim (fun st => andThen (readStringP st) (fun s st1 =>
            Except.ok (JsVal.str s, st1))) := by
          refine Sim.bind sim_readStringP (fun s => ?_)
          exact Sim.pure (fun _ => JsVal.str s) (fun st => st) (fun _ => rfl)
            (fun _ => le_refl _) (fun _ _ => rfl) (fun _ _ => rfl)
        exact Sim.congr (fun s0 => by simp +decide only [readCoreF, if_true, if_false]) hb
      by_cases h5 : c = 5
      · subst h5
        exact Sim.congr (fun s0 => by simp +decide only [readCoreF, if_true, if_false]) sim_readDate
      by_cases h8 : c = 8
      · subst h8
        have hb : Sim (fun st => andThen (readInt32 true st) (fun i st1 =>
            Except.ok (JsVal.num (JNum.fin i), st1))) := by
          refine Sim.bind (sim_readInt32 true) (fun i => ?_)
          exact Sim.pure (fun _ => JsVal.num (JNum.fin i)) (fun st => st) (fun _ => rfl)
            (fun _ => le_refl _) (fun _ _ => rfl) (fun _ _ => rfl)
        exact Sim.congr (fun s0 => by simp +decide only [readCoreF, if_true, if_false]) hb
      by_cases h9 : c = 9
      · subst h9
        have hb : Sim (fun st => andThen (readInt16 true st) (fun i st1 =>
            Except.ok (JsVal.num (JNum.fin i), st1))) := by
          refine Sim.bind (sim_readInt16 true) (fun i => ?_)
          exact Sim.pure (fun _ => JsVal.num (JNum.fin i)) (fun st => st) (fun _ => rfl)
            (fun _ => le_refl _) (fun _ _ => rfl) (fun _ _ => rfl)
        exact Sim.congr (fun s0 => by simp +decide only [readCoreF, if_true, if_false]) hb
      by_cases h10 : c = 10
      · subst h10
        have hb : Sim (fun st => andThen (readInt8 true st) (fun i st1 =>
            Except.ok (JsVal.num (JNum.fin i), st1))) := by
          refine Sim.bind (sim_readInt8 true) (fun i => ?_)
          exact Sim.pure (fun _ => JsVal.num (JNum.fin i)) (fun st => st) (fun _ => rfl)
            (fun _ => le_refl _) (fun _ _ => rfl) (fun _ _ => rfl)
        exact Sim.congr (fun s0 => by simp +decide only [readCoreF, if_true, if_false]) hb
      by_cases h11 : c = 11
      · subst h11
        have hb : Sim (fun st => andThen (readInt32 false st) (fun i st1 =>
            Except.ok (JsVal.num (JNum.fin i), st1))) := by
          refine Sim.bind (sim_readInt32 false) (fun i => ?_)
          exact Sim.pure (fun _ => JsVal.num (JNum.fin i)) (fun st => st) (fun _ => rfl)
            (fun _ => le_refl _) (fun _ _ => rfl) (fun _ _ => rfl)
        exact Sim.congr (fun s0 => by simp +decide only [readCoreF, if_true, if_false]) hb
      by_cases h12 : c = 12
      · subst h12
        have hb : Sim (fun st => andThen (readInt16 false st) (fun i st1 =>
            Except.ok (JsVal.num (JNum.fin i), st1))) := by
          refine Sim.bind (sim_readInt16 false) (fun i => ?_)
          exact Sim.pure (fun _ => JsVal.num (JNum.fin i)) (fun st => st) (fun _ => rfl)
            (fun _ => le_refl _) (fun _ _ => rfl) (fun _ _ => rfl)
        exact Sim.congr (fun s0 => by simp +decide only [readCoreF, if_true, if_false]) hb
      by_cases h13 : c = 13
      · subst h13
        have hb : Sim (fun st => andThen (readInt8 false st) (fun i st1 =>
            Except.ok (JsVal.num (JNum.fin i), st1))) := by
          refine Sim.bind (sim_readInt8 false) (fun i => ?_)
          exact Sim.pure (fun _ => JsVal.num (JNum.fin i)) (fun st => st) (fun _ => rfl)
            (fun _ => le_refl _) (fun _ _ => rfl) (fun _ _ => rfl)
        exact Sim.congr (fun s0 => by simp +decide only [readCoreF, if_true, if_false]) hb
      by_cases h14 : c = 14
      · subst h14
        have hb : Sim (fun st => andThen (readFloat st) (fun x st1 =>
            Except.ok (JsVal.num x, st1))) := by
          refine Sim.bind sim_readFloat (fun x => ?_)
          exact Sim.pure (fun _ => JsVal.num x) (fun st => st) (fun _ => rfl)
            (fun _ => le_refl _) (fun _ _ => rfl) (fun _ _ => rfl)
        exact Sim.congr (fun s0 => by simp +decide only [readCoreF, if_true, if_false]) hb
      by_cases h15 : c = 15
      · subst h15
        have hb : Sim (fun st => andThen (readDouble st) (fun x st1 =>
            Except.ok (JsVal.num x, st1))) := by
          refine Sim.bind sim_readDouble (fun x => ?_)
          exact Sim.pure (fun _ => JsVal.num x) (fun st => st) (fun _ => rfl)
            (fun _ => le_refl _) (fun _ _ => rfl) (fun _ _ => rfl)
        exact Sim.congr (fun s0 => by simp +decide only [readCoreF, if_true, if_false]) hb
      by_cases h16 : c = 16
      · subst h16
        exact Sim.congr (fun s0 => by simp +decide only [readCoreF, if_true, if_false]) (ihMap [])
      by_cases h20 : c = 20
      · subst h20
        have hb : Sim (fun st => andThen (readLength st) (fun size st1 =>
            Except.ok (st1.lastObject,
              { st1 with repeatSt := some (size - 1, st1.lastObject) }))) := by
          refine Sim.bind sim_readLength (fun size => ?_)
          exact Sim.pure (fun st1 => st1.lastObject)
            (fun st1 => { st1 with repeatSt := some (size - 1, st1.lastObject) })
            (fun _ => rfl) (fun _ => le_refl _) (fun _ _ => rfl) (fun _ _ => rfl)
        exact Sim.congr (fun s0 => by simp +decide only [readCoreF, if_true, if_false]) hb
      exact Sim.congr (fun s0 => by
          simp only [readCoreF, if_neg h0, if_neg h25, if_neg h3, if_neg h2, if_neg h6,
            if_neg h7, if_neg h4, if_neg h1, if_neg h19, if_neg h5, if_neg h8, if_neg h9,
            if_neg h10, if_neg h11, if_neg h12, if_neg h13, if_neg h14, if_neg h15,
            if_neg h16, if_neg h20])
        (sim_err (DecodeErr.invalidConstructor c))
    have hVec : ∀ n acc, Sim (fun st => readVecLoopF (f + 1) n st acc) := by
      intro n acc
      cases n with
      | zero =>
        have hb : Sim (fun st =>
            (Except.ok (JsVal.vec acc.reverse, st) : Except DecodeErr (JsVal × RState))) :=
          Sim.pure (fun _ => JsVal.vec acc.reverse) (fun st => st) (fun _ => rfl)
            (fun _ => le_refl _) (fun _ _ => rfl) (fun _ _ => rfl)
        exact Sim.congr (fun s0 => by simp only [readVecLoopF]) hb
      | succ m =>
        have hb : Sim (fun st => andThen (readObjectF f st) (fun v st1 =>
            readVecLoopF f m st1 (v :: acc))) :=
          Sim.bind ihObj (fun v => ihVec m (v :: acc))
        exact Sim.congr (fun s0 => by simp only [readVecLoopF]) hb
    have hMap : ∀ acc, Sim (fun st => readMapLoopF (f + 1) st acc) := by
      intro acc
      have hb : Sim (fun st => andThen (readDictionary st) (fun k st1 =>
          match (match k with
                 | DictKey.term => none
                 | DictKey.key s => some s
                 | DictKey.missing => some undefinedUnits : Option JsStr) with
          | none => Except.ok (JsVal.map acc, st1)
          | some s =>
            andThen (readObjectF f st1) fun v st2 => readMapLoopF f st2 (objSet acc s v))) := by
        refine Sim.bind sim_readDictionary (fun k => ?_)
        cases k with
        | term =>
          exact Sim.pure (fun _ => JsVal.map acc) (fun st => st) (fun _ => rfl)
            (fun _ => le_refl _) (fun _ _ => rfl) (fun _ _ => rfl)
        | key s =>
          exact Sim.bind ihObj (fun v => ihMap (objSet acc s v))
        | missing =>
          exact Sim.bind ihObj (fun v => ihMap (objSet acc undefinedUnits v))
      exact Sim.congr (fun s0 => by simp only [readMapLoopF]) hb
    have hDyn : ∀ acc, Sim (fun st => readDynLoopF (f + 1) st acc) := by
      intro acc
      have hInner : Sim (fun st => andThen (readByte st) (fun c st1 =>
          if c = 0 then Except.ok (JsVal.vec acc.reverse, st1)
          else andThen (readCoreF f c st1) fun v st2 => readDynLoopF f st2 (v :: acc))) := by
        refine Sim.bind sim_readByte (fun c => ?_)
        by_cases hc : c = 0
        · simp only [if_pos hc]
          exact Sim.pure (fun _ => JsVal.vec acc.reverse) (fun st => st) (fun _ => rfl)
            (fun _ => le_refl _) (fun _ _ => rfl) (fun _ _ => rfl)
        · simp only [if_neg hc]
          exact Sim.bind (ihCore c) (fun v => ihDyn (v :: acc))
      intro st v st' h
      have heq : ∀ s0 : RState, readDynLoopF (f + 1) s0 acc =
          (if s0.offset < s0.data.length then
            andThen (readByte s0) (fun c st1 =>
              if c = 0 then Except.ok (JsVal.vec acc.reverse, st1)
              else andThen (readCoreF f c st1) fun v st2 => readDynLoopF f st2 (v :: acc))
           else Except.error DecodeErr.dynIncomplete) := fun s0 => by
        simp only [readDynLoopF]
      change readDynLoopF (f + 1) st acc = Except.ok (v, st') at h
      rw [heq st] at h
      by_cases hlen0 : st.offset < st.data.length
      · rw [if_pos hlen0] at h
        obtain ⟨hd, hb, hsim⟩ := hInner st v st' h
        refine ⟨hd, hb, fun k hk hkl => ?_⟩
        by_cases hkc : st.offset < k
        · have hcond : (trunc k st).offset < (trunc k st).data.length := by
            rw [trunc_offset, trunc_data_length]
            omega
          rcases hsim k hk hkl with ⟨e, he, hinc⟩ | ⟨hok, hoff⟩
          · left
            refine ⟨e, ?_, hinc⟩
            show readDynLoopF (f + 1) (trunc k st) acc = Except.error e
            rw [heq (trunc k st), if_pos hcond]
            exact he
          · right
            refine ⟨?_, hoff⟩
            show readDynLoopF (f + 1) (trunc k st) acc = Except.ok (v, trunc k st')
            rw [heq (trunc k st), if_pos hcond]
            exact hok
        · left
          have hcond : ¬(trunc k st).offset < (trunc k st).data.length := by
            rw [trunc_offset, trunc_data_length]
            omega
          refine ⟨DecodeErr.dynIncomplete, ?_, rfl⟩
          show readDynLoopF (f + 1) (trunc k st) acc = Except.error DecodeErr.dynIncomplete
          rw [heq (trunc k st), if_neg hcond]
      · rw [if_neg hlen0] at h
        exact absurd h (by simp)
    exact ⟨hObj, hAfter, hCore, hVec, hMap, hDyn⟩

/-- C8: a buffer that decodes successfully consuming N bytes, truncated to any
k between 1 and N - 1, fails to decode with an error whose incomplete marker
is set. -/
theorem C8_truncation_incomplete (fuel : Nat) (data : List Nat) (v : JsVal) (N k : Nat)
    (hdec : runDecodeN fuel data = .ok (v, N)) (hk1 : 1 ≤ k) (hkN : k ≤ N - 1) :
    ∃ e, runDecodeN fuel (data.take k) = .error e ∧ e.isIncomplete = true := by
  cases hrd : runDecode fuel data with
  | error e =>
    have : runDecodeN fuel data = .error e := by
      unfold runDecodeN
      rw [hrd]
    rw [this] at hdec
    exact absurd hdec (by simp)
  | ok p =>
    obtain ⟨v0, st'⟩ := p
    have hRD : runDecodeN fuel data = Except.ok (v0, st'.offset) := by
      unfold runDecodeN
      rw [hrd]
    rw [hRD] at hdec
    simp only [Except.ok.injEq, Prod.mk.injEq] at hdec
    obtain ⟨hv0, hN⟩ := hdec
    obtain ⟨hd, hb, hsim⟩ := (sim_fueled fuel).1 (initReader data) v0 st' hrd
    have hNlen : st'.offset ≤ data.length := by
      have hmax : max (initReader data).offset (initReader data).data.length
          = data.length := by
        simp [initReader]
      rw [hmax] at hb
      exact hb
    have hklen : k ≤ data.length := by omega
    rcases hsim k (Nat.zero_le k) hklen with ⟨e, he, hinc⟩ | ⟨hok, hoff⟩
    · refine ⟨e, ?_, hinc⟩
      unfold runDecodeN
      rw [show runDecode fuel (data.take k) = Except.error e from he]
    · exfalso
      omega

attribute [local simp] JNum.jle JNum.seq JNum.trunc JNum.toInt32 JNum.shr qTrunc byteOf
  natLEBytes rhe qlog2 pow2q qAbs nlog2 natLog2 ieeeBits doubleBits floatBits bitsToJNum
  utf8EncCp utf8BytesGo utf8Bytes cpToUnits isCont utf8DecodeGo utf8Decode
  coreTypeNum coreType jsStrictEq findIdx Dictionary.getIndex Dictionary.getValue
  Dictionary.maybeInsert Dictionary.hasValue setAt writeByte putListAt writeBytesSeq
  writeLength writeInt8 writeInt16 writeInt32 writeDouble writeFloat writeDate writeBool
  writeNull writeString writeRepeat wireDictionary writeObjectF writeCoreF writeVecF
  writeMapF freshWriter encodeBytes encodeOut DecodeErr.isIncomplete byteAt checkRead
  readByte sliceLE sliceBytes andThen readSlice readLength readInt32 readInt16 readInt8 readFloat readDouble
  jnumTimes1000 dateClip readDate readBytesP readStringP getDictVal readDictionary
  undefinedUnits objSet readObjectF readObjAfterF readCoreF readVecLoopF readMapLoopF
  readDynLoopF initReader runDecode runDecodeN decErrOf decOutDate decOutNum numsOf
  decOutNums

/-- C1: the round-trip law fails on the code.  The writer reroutes every
string of code-unit length at most 16 through the dictionary path, so
encoding the one-character string "a" yields the DictValue frame
`11 01 61`; the readCore switch of the decoder has no DictValue case, so
decoding that frame raises the invalid-constructor error (not flagged
incomplete) instead of returning the string. -/
theorem C1_roundtrip_short_string_breaks :
    encodeOut 4 freshWriter (.str [97]) = .ok [17, 1, 97] ∧
    decErrOf (runDecodeN 4 [17, 1, 97]) = some (.invalidConstructor 17) ∧
    (DecodeErr.invalidConstructor 17).isIncomplete = false := by
  refine ⟨by simp +decide, by simp, by decide⟩

/-- C2: the writer stores `getTime()` (epoch milliseconds) as the Date
payload without dividing by 1000, while the reader multiplies the decoded
double by 1000; the Date one millisecond after the epoch encodes as the
double 1.0 and decodes to the instant 1000 milliseconds after the epoch,
so the round trip moves the instant. -/
theorem C2_date_milliseconds_not_seconds :
    encodeOut 4 freshWriter (.date (.fin 1)) = .ok [5, 0, 0, 0, 0, 0, 0, 240, 63] ∧
    decOutDate (runDecodeN 4 [5, 0, 0, 0, 0, 0, 0, 240, 63]) = some (.fin 1000, 9) ∧
    JNum.fin 1000 ≠ JNum.fin 1 := by
  refine ⟨by simp +decide, by simp +decide, by decide⟩

/-- C3: the shipped coreType checks only ranges, never integrality, so the
non-integral 0.5 is classified UInt8 (13), its frame is `0D 00`, and it
decodes to 0 — refuting the non-integral-to-Double rule; the six integral
boundary examples of the claim do hold (frames shown in full). -/
theorem C3_coreType_ignores_integrality :
    coreType (.num (.fin (1 / 2))) = 13 ∧
    encodeOut 4 freshWriter (.num (.fin (1 / 2))) = .ok [13, 0] ∧
    decOutNum (runDecodeN 4 [13, 0]) = some (.fin 0, 2) ∧
    encodeOut 4 freshWriter (.num (.fin 0)) = .ok [13, 0] ∧
    encodeOut 4 freshWriter (.num (.fin 256)) = .ok [12, 0, 1] ∧
    encodeOut 4 freshWriter (.num (.fin (-1))) = .ok [10, 255] ∧
    encodeOut 4 freshWriter (.num (.fin 65536)) = .ok [11, 0, 0, 1, 0] ∧
    encodeOut 4 freshWriter (.num (.fin (-32769))) = .ok [8, 255, 127, 255, 255] ∧
    encodeOut 4 freshWriter (.num (.fin (2 ^ 40))) = .ok [15, 0, 0, 0, 0, 0, 0, 112, 66] := by
  refine ⟨by decide, by simp +decide, by simp, by simp +decide, by simp +decide,
    by simp +decide, by simp +decide, by simp +decide, by simp +decide⟩

/-- C4 counterexample: encoding the fixture map (key "a" bound twice to 1)
on a fresh encoder produces `10 11 01 61 0D 01 12 00 0D 01 00`, not the
claimed `10 11 01 61 0D 01 12 01 14 01 00`: the DictIndex payload is the
absolute index 0 (not 1), and because writeMap resets the last-written
marker before every entry the second value 1 is re-encoded as UInt8 rather
than folded into a Repeat run. -/
theorem C4_fixture_counterexample :
    encodeOut 8 freshWriter (.map [([97], .num (.fin 1)), ([97], .num (.fin 1))]) =
      .ok [16, 17, 1, 97, 13, 1, 18, 0, 13, 1, 0] ∧
    [16, 17, 1, 97, 13, 1, 18, 0, 13, 1, 0] ≠ [16, 17, 1, 97, 13, 1, 18, 1, 20, 1, 0] := by
  refine ⟨by simp +decide, by decide⟩

/-- C4 amended: inside one encode call, a value equal to the last written
scalar is always emitted as a Repeat run — but writeMap resets that marker
to the noop sentinel before each entry, so the rule does not extend across
map entries; with a fresh dictionary the fixture map therefore encodes to
`10 11 01 61 0D 01 12 00 0D 01 00` (DictValue "a", UInt8 1, DictIndex 0,
UInt8 1, terminator). -/
theorem C4_repeat_rule_amended (f : Nat) (st : WState) (v : JsVal)
    (hc : coreType v ≠ 0) (hl : jsStrictEq st.last v = true) :
    writeObjectF (f + 1) st v = .ok (writeRepeat st) ∧
    encodeOut 8 freshWriter (.map [([97], .num (.fin 1)), ([97], .num (.fin 1))]) =
      .ok [16, 17, 1, 97, 13, 1, 18, 0, 13, 1, 0] := by
  refine ⟨?_, by simp +decide⟩
  cases v <;> simp only [writeObjectF, coreType] at hc ⊢ <;>
    first
      | exact absurd rfl hc
      | simp only [hl, if_neg hc, if_pos rfl, ite_true, ite_false, Bool.true_eq,
          if_true]

/-- C4 amended witness: the repeat rule instantiated at a writer whose last
scalar is 7 writing 7 again, together with the fixture bytes. -/
theorem C4_repeat_rule_amended_witness :
    writeObjectF 2 { freshWriter with last := some (.num (.fin 7)) } (.num (.fin 7)) =
      .ok (writeRepeat { freshWriter with last := some (.num (.fin 7)) }) ∧
    encodeOut 8 freshWriter (.map [([97], .num (.fin 1)), ([97], .num (.fin 1))]) =
      .ok [16, 17, 1, 97, 13, 1, 18, 0, 13, 1, 0] :=
  C4_repeat_rule_amended 1 _ _ (by decide) (by decide)

/-- C5: maybeInsert on a fresh empty dictionary returns 1 for the first
inserted word although the word is stored at absolute index 0: the source
returns `_count + _offset` after incrementing `_count`, off by one from the
index getIndex and getValue agree on; the duplicate insert is a no-op as
claimed. -/
theorem C5_maybeInsert_off_by_one :
    (Dictionary.maybeInsert ⟨[], 0⟩ [97]).1 = some 1 ∧
    (Dictionary.maybeInsert ⟨[], 0⟩ [97]).2.getIndex [97] = some 0 ∧
    (Dictionary.maybeInsert ⟨[], 0⟩ [97]).2.getValue 1 = none ∧
    (Dictionary.maybeInsert ⟨[], 0⟩ [97]).2.getValue 0 = some [97] ∧
    Dictionary.maybeInsert (Dictionary.maybeInsert ⟨[], 0⟩ [97]).2 [97] =
      (none, (Dictionary.maybeInsert ⟨[], 0⟩ [97]).2) :=
  ⟨rfl, rfl, rfl, rfl, rfl⟩

/-- C7: the sequence [7, 7, 7, 7] encodes as a Vector holding one
UInt8-tagged 7 followed by a single Repeat whose rewritten count bytes end
at 3, and the frame decodes back to the four-element vector with all six
bytes consumed (the last three elements come from the repeat pool). -/
theorem C7_repeat_compression :
    encodeOut 8 freshWriter
        (.vec [.num (.fin 7), .num (.fin 7), .num (.fin 7), .num (.fin 7)]) =
      .ok [6, 4, 13, 7, 20, 3] ∧
    decOutNums (runDecodeN 16 [6, 4, 13, 7, 20, 3]) =
      some ([.fin 7, .fin 7, .fin 7, .fin 7], 6) := by
  refine ⟨by simp +decide, by simp⟩

/-- C9 helper: every one-byte frame whose byte is a reserved code (21 to 24
or 26 to 34) or an unregistered extension token (35 to 254) decodes to the
invalid-constructor error, checked exhaustively. -/
theorem c9_all_reserved : ∀ c, c < 255 →
    ((21 ≤ c ∧ c ≤ 24) ∨ (26 ≤ c ∧ c ≤ 34) ∨ (35 ≤ c ∧ c ≤ 254)) →
    decErrOf (runDecodeN 4 [c]) = some (.invalidConstructor c) := by decide

/-- C9: decoding a one-byte buffer holding a reserved constructor code
(21 to 24, 26 to 34) or an extension token (35 to 254) with no registered
extension raises the invalid-constructor error, which does not carry the
incomplete marker. -/
theorem C9_reserved_tag_rejected (c : Nat)
    (h : (21 ≤ c ∧ c ≤ 24) ∨ (26 ≤ c ∧ c ≤ 34) ∨ (35 ≤ c ∧ c ≤ 254)) :
    decErrOf (runDecodeN 4 [c]) = some (.invalidConstructor c) ∧
    (DecodeErr.invalidConstructor c).isIncomplete = false := by
  refine ⟨c9_all_reserved c ?_ h, rfl⟩
  rcases h with ⟨_, h⟩ | ⟨_, h⟩ | ⟨_, h⟩ <;> omega

/-- C9 witness at the reserved code 21. -/
theorem C9_reserved_tag_rejected_witness :
    decErrOf (runDecodeN 4 [21]) = some (.invalidConstructor 21) ∧
    (DecodeErr.invalidConstructor 21).isIncomplete = false :=
  C9_reserved_tag_rejected 21 (Or.inl (by omega))

/-- C10: the writer does emit a bare Null byte for an undefined array slot,
but writeNull clears neither the last-written scalar nor the active Repeat
run, so in [7, 7, undefined, 7] the fourth element re-enters the run and
the count rewrite at the remembered offset truncates the Null byte out of
the returned frame: the frame is `06 04 0D 07 14 02` (count 2, no Null),
and decoding it underruns — the decoded vector does not exist, refuting the
same-length-with-null claim. -/
theorem C10_undefined_slot_clobbered :
    encodeOut 8 freshWriter (.vec [.num (.fin 7), .num (.fin 7), .undef, .num (.fin 7)]) =
      .ok [6, 4, 13, 7, 20, 2] ∧
    decErrOf (runDecodeN 16 [6, 4, 13, 7, 20, 2]) = some (.underrun 1 0) ∧
    (DecodeErr.underrun 1 0).isIncomplete = true := by
  refine ⟨by simp +decide, by simp, by decide⟩

/-- Concrete instance of C8: the String frame 13 01 61 decodes to "a"
consuming 3 bytes, and its 1-byte prefix fails with an incomplete error. -/
theorem C8_truncation_incomplete_witness :
    runDecodeN 4 [19, 1, 97] = .ok (.str [97], 3) ∧ 1 ≤ 1 ∧ 1 ≤ 3 - 1 ∧
    (∃ e, runDecodeN 4 ([19, 1, 97].take 1) = .error e ∧ e.isIncomplete = true) :=
  ⟨by simp, by decide, by decide,
   C8_truncation_incomplete 4 [19, 1, 97] (.str [97]) 3 1 (by simp) (by decide) (by decide)⟩

end TLP
